import Mathlib

/-!
Shallow embedding of the demographic core of `src/code/get_pop_data.py`:
the excess-death calibration objective (`excess_death_dist`, lines 137-160),
the five-year phase-in of shocked mortality and infant-mortality rates built
inside `disease_pop` (lines 194-213), and the cohort projector `total_deaths`
(lines 252-295).  Vectors and matrices of rates are rational-valued lists;
NumPy 1-D broadcasting, slice assignment and out-of-range indexing are
modelled explicitly, and any operation that raises in NumPy returns `none`.
-/

abbrev Vec := List ℚ

abbrev Mat := List Vec

/-- Result length of NumPy 1-D broadcasting of two shapes, `none` when the
shapes are incompatible (neither equal nor one of them of length 1). -/
def bcastLen (m n : Nat) : Option Nat :=
  if m = n then some m
  else if m = 1 then some n
  else if n = 1 then some m
  else none

/-- Element read used under broadcasting: a length-one array repeats its
single entry, otherwise the element at `i` is read directly. -/
def bget (v : Vec) (i : Nat) : ℚ :=
  if v.length = 1 then v.headD 0 else v.getD i 0

/-- Element-wise binary operation with NumPy 1-D broadcasting. -/
def npBinop (f : ℚ → ℚ → ℚ) (a b : Vec) : Option Vec :=
  match bcastLen a.length b.length with
  | none => none
  | some L => some ((List.range L).map fun i => f (bget a i) (bget b i))

/-- NumPy element-wise product `a * b`. -/
def npMul : Vec → Vec → Option Vec := npBinop (· * ·)

/-- NumPy element-wise sum `a + b`. -/
def npAdd : Vec → Vec → Option Vec := npBinop (· + ·)

/-- Scalar-minus-vector `1 - v`, which always broadcasts. -/
def oneMinus (v : Vec) : Vec := v.map fun m => 1 - m

/-- NumPy slice assignment `target[1:] = src`: the source must match the
slot length `target.length - 1` or have length 1 (scalar broadcast). -/
def setTail (target src : Vec) : Option Vec :=
  let t := target.length - 1
  if src.length = t then some (target.take 1 ++ src)
  else if src.length = 1 then some (target.take 1 ++ List.replicate t (src.headD 0))
  else none

/-- NumPy assignment `v[0] = x`, an index error on an empty array. -/
def setHead (v : Vec) (x : ℚ) : Option Vec :=
  if v.length = 0 then none else some (v.set 0 x)

/-- NumPy row assignment `m[y, :] = src`, an index error when `y` is out of
range and a shape error when `src` does not broadcast into the row. -/
def setRow (m : Mat) (y : Nat) (src : Vec) : Option Mat :=
  match m.get? y with
  | none => none
  | some row =>
    if src.length = row.length then some (m.set y src)
    else if src.length = 1 then
      some (m.set y (List.replicate row.length (src.headD 0)))
    else none

/-- Body of one projector year (lines 277-281 of `total_deaths`): given the
year's mortality, fertility, infant-mortality and immigration rates, build
the next population from the current one.  The survivor line multiplies
`pop_t[:-1]` with the full `1 - mort` row and assigns into `pop_tp1[1:]`,
exactly as the source does. -/
def projBody (mrow frow : Vec) (infv : ℚ) (irow popT : Vec) : Option Vec := do
  let popTp1 : Vec := List.replicate popT.length 0
  let t1 ← npMul popT.dropLast (oneMinus mrow)
  let t2 ← npMul popT irow
  let t3 ← npAdd t1 t2
  let popTp1 ← setTail popTp1 t3
  let births ← npMul popT frow
  let popTp1 ← setHead popTp1 (births.sum * (1 - infv))
  pure popTp1

/-- One iteration of the first loop of `total_deaths` (lines 275-282): rates
are taken from row `y` of each schedule. -/
def stepAt (fert mort : Mat) (infmort : Vec) (imm : Mat)
    (st : Mat × Vec) (y : Nat) : Option (Mat × Vec) := do
  let mrow ← mort.get? y
  let drow ← npMul st.2 mrow
  let deaths ← setRow st.1 y drow
  let frow ← fert.get? y
  let irow ← imm.get? y
  let infv ← infmort.get? y
  let popN ← projBody mrow frow infv irow st.2
  pure (deaths, popN)

/-- One iteration of the second loop of `total_deaths` (lines 284-293): rates
are taken from the last row (`[-1]`) of each schedule. -/
def stepLast (fert mort : Mat) (infmort : Vec) (imm : Mat)
    (st : Mat × Vec) (y : Nat) : Option (Mat × Vec) := do
  let mrow ← mort.getLast?
  let drow ← npMul st.2 mrow
  let deaths ← setRow st.1 y drow
  let frow ← fert.getLast?
  let irow ← imm.getLast?
  let infv ← infmort.getLast?
  let popN ← projBody mrow frow infv irow st.2
  pure (deaths, popN)

/-- Run the projector's yearly loop over the given year indices, threading
the `(deaths, population)` state and propagating the first failure. -/
def runYears (f : Mat × Vec → Nat → Option (Mat × Vec)) :
    Mat × Vec → List Nat → Option (Mat × Vec)
  | st, [] => some st
  | st, y :: ys =>
    match f st y with
    | none => none
    | some st2 => runYears f st2 ys

/-- Python `range(a, b)`. -/
def rangeFrom (a b : Nat) : List Nat := (List.range (b - a)).map (a + ·)

/-- Embedding of `total_deaths` (lines 252-295): a first loop over the
stored schedule length using row `y`, then a second loop up to `num_years`
reusing the last stored row of every schedule. -/
def totalDeaths (pop_dist fert mort : Mat) (infmort : Vec) (imm : Mat)
    (num_years : Nat) : Option Mat := do
  let initial_years := mort.length
  let C := (mort.headD []).length
  let deaths : Mat := List.replicate num_years (List.replicate C 0)
  let popT ← pop_dist.get? 0
  let st1 ← runYears (stepAt fert mort infmort imm) (deaths, popT)
    (List.range initial_years)
  let st2 ← runYears (stepLast fert mort infmort imm) st1
    (rangeFrom initial_years num_years)
  pure st2.1

/-- One iteration of the projector written the way the specification
describes the two regimes: year `y` uses row `y` of each schedule while
`y < L` and row `L - 1` afterwards. -/
def stepSpec (fert mort : Mat) (infmort : Vec) (imm : Mat) (L : Nat)
    (st : Mat × Vec) (y : Nat) : Option (Mat × Vec) := do
  let r := if y < L then y else L - 1
  let mrow ← mort.get? r
  let drow ← npMul st.2 mrow
  let deaths ← setRow st.1 y drow
  let frow ← fert.get? r
  let irow ← imm.get? r
  let infv ← infmort.get? r
  let popN ← projBody mrow frow infv irow st.2
  pure (deaths, popN)

/-- Projector written to the spec's tail-hold description: one uniform loop
over all years, selecting row `min y (L-1)` of every schedule.  Declared for
comparison with the source embedding `totalDeaths`. -/
def totalDeathsSpecHold (pop_dist fert mort : Mat) (infmort : Vec) (imm : Mat)
    (num_years : Nat) : Option Mat := do
  let L := mort.length
  let C := (mort.headD []).length
  let deaths : Mat := List.replicate num_years (List.replicate C 0)
  let popT ← pop_dist.get? 0
  let st ← runYears (stepSpec fert mort infmort imm L) (deaths, popT)
    (List.range num_years)
  pure st.1

/-- Aggregate excess deaths implied by scale factor `s` (lines 154-157 of
`excess_death_dist`): deaths under `min(mort*(1+s), 1)` minus baseline
deaths. -/
def predictedExcess (scale_factor : ℚ) (pop_dist mort_rates : Vec) : Option ℚ := do
  let current_deaths ← npMul pop_dist mort_rates
  let alt_mort_rates := mort_rates.map fun m => min (m * (1 + scale_factor)) 1
  let new_deaths ← npMul pop_dist alt_mort_rates
  pure (new_deaths.sum - current_deaths.sum)

/-- Calibration objective `excess_death_dist` (lines 137-160): squared
distance between the predicted and the targeted excess deaths. -/
def excess_death_dist (scale_factor : ℚ) (pop_dist mort_rates : Vec)
    (excess_deaths : ℚ) : Option ℚ :=
  (predictedExcess scale_factor pop_dist mort_rates).map
    fun p => (p - excess_deaths) ^ 2

/-- Phased mortality matrix built in `disease_pop` (lines 204-210): row `i`
scales the baseline row by `1 + s*(i+1)/num_years`, clamped at 1. -/
def phaseMortRates (mort0 : Vec) (scale_factor : ℚ) (num_years : Nat) : Mat :=
  (List.range num_years).map fun (i : Nat) =>
    mort0.map fun m =>
      min (m * (1 + scale_factor * ((i : ℚ) + 1) / (num_years : ℚ))) 1

/-- Phased infant-mortality vector built in `disease_pop` (lines 206-213).
The incoming `infmort_rates` argument is shadowed by a zero array before the
loop reads entry 0 as the "baseline", exactly as in the source. -/
def phaseInfmortRates (infmort_rates : Vec) (scale_factor : ℚ)
    (num_years : Nat) : Vec :=
  let infmort_rates : Vec := List.replicate num_years 0
  (List.range num_years).foldl
    (fun a i =>
      a.set i (min (a.getD 0 0 * (1 + scale_factor * ((i : ℚ) + 1) / (num_years : ℚ))) 1))
    infmort_rates

/-- Fraction of the full shock applied at phase-in row `i`, the factor
`(i + 1) / num_years` appearing in the `disease_pop` loop. -/
def phaseWeight (num_years i : Nat) : ℚ := ((i : ℚ) + 1) / (num_years : ℚ)

/-- C1: the projector is claimed to produce, for every initial population of
age dimension n, a deaths row and next-year population given by the cohort
recursion.  At the two-age input `pop=[[100,100]]`, `fert=mort=imm=[[0,0]]`,
`infmort=[0]`, `num_years=1`, the survivor update's shapes do not broadcast
and `total_deaths` raises instead of returning the claimed values. -/
theorem totalDeaths_fails_on_two_age_input :
    totalDeaths [[100, 100]] [[0, 0]] [[0, 0]] [0] [[0, 0]] 1 = none := by
  decide

/-- C4: the phased infant-mortality output is claimed to equal
`min(baseline*(1+s*(i+1)/N), 1)`; the code zeroes the array before reading
entry 0 as the baseline, so at baseline `[1/10]`, `s = 1`, `N = 5` every
produced entry is `0`, while the claimed row-0 value `min(1/10*(1+1/5), 1)`
is nonzero. -/
theorem phaseInfmort_all_zero :
    phaseInfmortRates [1/10] 1 5 = [0, 0, 0, 0, 0] ∧
      min ((1/10 : ℚ) * (1 + 1 * (0 + 1) / 5)) 1 ≠ 0 := by
  constructor
  · simp [phaseInfmortRates, List.range_succ]
  · norm_num

/-- C8 counterexample: with zero mortality and zero immigration, one step of
the projector recursion on `pop=[5]` (with zero fertility, zero infant
mortality) yields total population 0 while the previous total plus newborns
is 5: total population is not conserved, the oldest cohort is truncated. -/
theorem projBody_mass_not_conserved :
    projBody [(0 : ℚ)] [0] 0 [0] [5] = some [0] ∧
      List.sum [(0 : ℚ)] ≠ List.sum [(5 : ℚ)] + List.headD [(0 : ℚ)] 0 := by
  constructor
  · simp [projBody, npMul, npAdd, npBinop, bcastLen, bget, oneMinus, setTail, setHead,
      List.range_succ]
  · norm_num

/-- C9 counterexample: a negative population entry is a malformed input, yet
`total_deaths` returns a projection result rather than failing with a
validation error. -/
theorem totalDeaths_accepts_negative_population :
    totalDeaths [[(-5 : ℚ)]] [[0]] [[0]] [0] [[0]] 1 ≠ none := by
  decide

/-- C9 amended: the core performs no input validation at all; an input
combining a negative population entry, a mortality rate of 2 (outside
[0,1]) and a fertility row whose age dimension mismatches the population
is processed silently into a (degenerate, negative) death matrix. -/
theorem totalDeaths_no_validation :
    totalDeaths [[(-5 : ℚ)]] [[1, 2]] [[2]] [0] [[0]] 1 = some [[-10]] := by
  simp [totalDeaths, stepAt, stepLast, projBody, npMul, npAdd, npBinop, bcastLen, bget,
    oneMinus, setTail, setHead, setRow, runYears, rangeFrom, List.range_succ]
  norm_num

/-- C3: row `i` (0-indexed) of the phased mortality matrix equals
`min(mort[a]*(1 + s*(i+1)/N), 1)` at every age `a`, and row `N-1` equals
`mort*(1+s)` element-wise, clamped at 1, with no residual dampening. -/
theorem phaseMort_row_formula (mort0 : Vec) (s : ℚ) (N : Nat) (hN : 1 ≤ N) :
    (∀ i, i < N → ∀ a, a < mort0.length →
      ((phaseMortRates mort0 s N).getD i []).getD a 0 =
        min (mort0.getD a 0 * (1 + s * ((i : ℚ) + 1) / (N : ℚ))) 1) ∧
    (phaseMortRates mort0 s N).getD (N - 1) [] =
      mort0.map fun m => min (m * (1 + s)) 1 := by
  have hrow : ∀ i, i < N → (phaseMortRates mort0 s N).getD i [] =
      mort0.map fun m => min (m * (1 + s * ((i : ℚ) + 1) / (N : ℚ))) 1 := by
    intro i hi
    have hlen : i < (phaseMortRates mort0 s N).length := by
      rw [phaseMortRates]
      simpa using hi
    rw [List.getD_eq_getElem _ _ hlen]
    simp only [phaseMortRates, List.getElem_map, List.getElem_range]
  refine ⟨?_, ?_⟩
  · intro i hi a ha
    rw [hrow i hi]
    have ha2 : a < (mort0.map fun m =>
        min (m * (1 + s * ((i : ℚ) + 1) / (N : ℚ))) 1).length := by simpa using ha
    rw [List.getD_eq_getElem _ _ ha2, List.getElem_map,
      List.getD_eq_getElem _ _ ha]
  · have h1 : N - 1 < N := Nat.sub_lt hN Nat.one_pos
    rw [hrow (N - 1) h1]
    have hcast : ((N - 1 : Nat) : ℚ) + 1 = (N : ℚ) := by
      rw [Nat.cast_sub hN]
      ring
    have hNne : (N : ℚ) ≠ 0 := Nat.cast_ne_zero.mpr (by omega)
    rw [hcast]
    congr 1
    funext m
    rw [mul_div_assoc, div_self hNne, mul_one]

/-- C6: every entry of the phased mortality matrix and of the phased
infant-mortality vector is at most 1, and the fraction weights `(i+1)/N`
strictly increase across rows `0..N-1` and equal exactly 1 at the final
row. -/
theorem phase_ceiling_and_weights (mort0 inf0 : Vec) (s : ℚ) (N : Nat)
    (hN : 1 ≤ N) :
    (∀ row ∈ phaseMortRates mort0 s N, ∀ x ∈ row, x ≤ 1) ∧
    (∀ x ∈ phaseInfmortRates inf0 s N, x ≤ 1) ∧
    (∀ i j, i < j → j < N → phaseWeight N i < phaseWeight N j) ∧
    phaseWeight N (N - 1) = 1 := by
  have hNpos : (0 : ℚ) < (N : ℚ) := by exact_mod_cast Nat.lt_of_lt_of_le Nat.zero_lt_one hN
  refine ⟨?_, ?_, ?_, ?_⟩
  · intro row hrow x hx
    rw [phaseMortRates] at hrow
    obtain ⟨i, _, rfl⟩ := List.mem_map.mp hrow
    obtain ⟨m, _, rfl⟩ := List.mem_map.mp hx
    exact min_le_right _ _
  · rw [phaseInfmortRates]
    have key : ∀ (l : List Nat) (a : Vec), (∀ x ∈ a, x ≤ 1) →
        ∀ x ∈ l.foldl (fun a i =>
          a.set i (min (a.getD 0 0 * (1 + s * ((i : ℚ) + 1) / (N : ℚ))) 1)) a, x ≤ 1 := by
      intro l
      induction l with
      | nil => intro a ha x hx; exact ha x hx
      | cons y ys ih =>
        intro a ha x hx
        refine ih _ ?_ x hx
        intro z hz
        rcases List.mem_or_eq_of_mem_set hz with hz2 | rfl
        · exact ha z hz2
        · exact min_le_right _ _
    intro x hx
    refine key _ _ ?_ x hx
    intro z hz
    rw [List.eq_of_mem_replicate hz]
    exact zero_le_one
  · intro i j hij hj
    rw [phaseWeight, phaseWeight, div_lt_div_iff_of_pos_right hNpos]
    have : (i : ℚ) < (j : ℚ) := by exact_mod_cast hij
    linarith
  · rw [phaseWeight]
    have hcast : ((N - 1 : Nat) : ℚ) + 1 = (N : ℚ) := by
      rw [Nat.cast_sub hN]; ring
    rw [hcast, div_self (ne_of_gt hNpos)]

/-- Witness for the phase-in row formula at `mort0 = [1/2]`, `s = 1`,
`N = 2`. -/
theorem phaseMort_row_formula_witness :
    1 ≤ 2 ∧ ((phaseMortRates [1/2] 1 2).getD 0 []).getD 0 0 =
      min ((1/2 : ℚ) * (1 + 1 * ((0 : ℚ) + 1) / (2 : ℚ))) 1 :=
  ⟨by norm_num, by
    have h := (phaseMort_row_formula [1/2] 1 2 (by norm_num)).1 0 (by norm_num) 0 (by simp)
    simpa using h⟩

/-- Witness for the ceiling/weights invariant at `N = 2`. -/
theorem phase_ceiling_and_weights_witness :
    1 ≤ 2 ∧ phaseWeight 2 (2 - 1) = 1 :=
  ⟨by norm_num, (phase_ceiling_and_weights [1/2] [1/10] 1 2 (by norm_num)).2.2.2⟩

/-- Reduction of an Option bind at a present value. -/
theorem optionBind_some {A B : Type} (a : A) (f : A -> Option B) :
    (some a >>= f) = f a := rfl

/-- Splitting the yearly loop across a concatenation of year lists. -/
theorem runYears_append (f : Mat × Vec → Nat → Option (Mat × Vec))
    (l1 l2 : List Nat) (st : Mat × Vec) :
    runYears f st (l1 ++ l2) =
      (runYears f st l1 >>= fun st2 => runYears f st2 l2) := by
  induction l1 generalizing st with
  | nil => simp [runYears]
  | cons y ys ih =>
    rw [List.cons_append, runYears, runYears]
    cases f st y with
    | none => simp
    | some st2 => exact ih st2

/-- The yearly loop only depends on the step function's values at the years
actually run. -/
theorem runYears_congr {f g : Mat × Vec → Nat → Option (Mat × Vec)}
    {l : List Nat} (h : ∀ st y, y ∈ l → f st y = g st y) (st : Mat × Vec) :
    runYears f st l = runYears g st l := by
  induction l generalizing st with
  | nil => rfl
  | cons y ys ih =>
    rw [runYears, runYears, h st y (List.mem_cons_self y ys)]
    cases g st y with
    | none => rfl
    | some st2 => exact ih (fun st2 y2 hy => h st2 y2 (List.mem_cons_of_mem _ hy)) st2

/-- In the time-varying regime (`y < L`) the spec-style step coincides with
the first-loop step of the source. -/
theorem stepSpec_eq_stepAt (fert mort : Mat) (infmort : Vec) (imm : Mat)
    (L : Nat) (st : Mat × Vec) (y : Nat) (hy : y < L) :
    stepSpec fert mort infmort imm L st y = stepAt fert mort infmort imm st y := by
  rw [stepSpec, stepAt, if_pos hy]

/-- In the held-constant regime (`y ≥ L`, all schedules of length `L ≥ 1`)
the spec-style step coincides with the second-loop step of the source. -/
theorem stepSpec_eq_stepLast (fert mort : Mat) (infmort : Vec) (imm : Mat)
    (L : Nat) (st : Mat × Vec) (y : Nat) (hy : ¬ y < L)
    (hf : fert.length = L) (hm : mort.length = L)
    (hi : infmort.length = L) (him : imm.length = L) :
    stepSpec fert mort infmort imm L st y = stepLast fert mort infmort imm st y := by
  rw [stepSpec, stepLast, if_neg hy,
    List.getLast?_eq_get? mort, List.getLast?_eq_get? fert,
    List.getLast?_eq_get? infmort, List.getLast?_eq_get? imm,
    hf, hm, hi, him]

/-- C5: when every schedule stores exactly `L ≥ 1` rows and the horizon is
`H ≥ L`, the source projector equals the spec's uniform description: year
`y` uses rate row `y` while `y < L` and row `L-1` for every `y ≥ L`, the
regime changing exactly once at `y = L`. -/
theorem totalDeaths_tail_hold (pop_dist fert mort : Mat) (infmort : Vec)
    (imm : Mat) (L H : Nat) (hf : fert.length = L) (hm : mort.length = L)
    (hi : infmort.length = L) (him : imm.length = L)
    (hL : 1 ≤ L) (hLH : L ≤ H) :
    totalDeaths pop_dist fert mort infmort imm H =
      totalDeathsSpecHold pop_dist fert mort infmort imm H := by
  rw [totalDeaths, totalDeathsSpecHold, hm]
  cases hpop : pop_dist.get? 0 with
  | none => rfl
  | some popT =>
    simp only [optionBind_some]
    have hsplit : List.range H = List.range L ++ rangeFrom L H := by
      have h3 := List.range_add L (H - L)
      rw [Nat.add_sub_cancel' hLH] at h3
      rw [rangeFrom]
      exact h3
    rw [hsplit, runYears_append]
    have h1 : runYears (stepSpec fert mort infmort imm L)
        (List.replicate H (List.replicate (mort.headD []).length 0), popT)
        (List.range L) =
        runYears (stepAt fert mort infmort imm)
        (List.replicate H (List.replicate (mort.headD []).length 0), popT)
        (List.range L) := by
      refine runYears_congr (fun st y hy => ?_) _
      exact stepSpec_eq_stepAt fert mort infmort imm L st y (List.mem_range.mp hy)
    rw [h1]
    cases hrun : runYears (stepAt fert mort infmort imm)
        (List.replicate H (List.replicate (mort.headD []).length 0), popT)
        (List.range L) with
    | none => rfl
    | some st1 =>
      simp only [optionBind_some]
      have h2 : runYears (stepSpec fert mort infmort imm L) st1 (rangeFrom L H) =
          runYears (stepLast fert mort infmort imm) st1 (rangeFrom L H) := by
        refine runYears_congr (fun st y hy => ?_) _
        have hyL : ¬ y < L := by
          rw [rangeFrom] at hy
          obtain ⟨k, _, rfl⟩ := List.mem_map.mp hy
          omega
        exact stepSpec_eq_stepLast fert mort infmort imm L st y hyL hf hm hi him
      rw [h2]

/-- Witness for the tail-hold refinement at `L = 1`, `H = 2` on a one-age
input. -/
theorem totalDeaths_tail_hold_witness :
    (1 : Nat) ≤ 2 ∧
      totalDeaths [[2]] [[0]] [[0]] [0] [[0]] 2 =
        totalDeathsSpecHold [[2]] [[0]] [[0]] [0] [[0]] 2 :=
  ⟨by norm_num,
    totalDeaths_tail_hold [[2]] [[0]] [[0]] [0] [[0]] 1 2 rfl rfl rfl rfl
      (by norm_num) (by norm_num)⟩

/-- Closed form of the predicted excess deaths for the spec's concrete
scenario `pop = [100, 100]`, `mort = [1/100, 1/20]`. -/
theorem predictedExcess_calib (s : ℚ) :
    predictedExcess s [100, 100] [1/100, 1/20] =
      some (100 * min ((1/100) * (1 + s)) 1 + 100 * min ((1/20) * (1 + s)) 1 - 6) := by
  simp [predictedExcess, npMul, npBinop, bcastLen, bget, List.range_succ]
  ring_nf

/-- C2: in the concrete scenario `pop = [100, 100]`, `mort = [1/100, 1/20]`,
target excess deaths 1, any scale factor that minimises the calibration
objective `excess_death_dist` makes the achieved aggregate excess deaths
exactly 1 (hence certainly within the optimizer's 1e-4 tolerance). -/
theorem calibrated_scale_achieves_target (s : ℚ)
    (hmin : ∀ t u v, excess_death_dist s [100, 100] [1/100, 1/20] 1 = some u →
      excess_death_dist t [100, 100] [1/100, 1/20] 1 = some v → u ≤ v) :
    predictedExcess s [100, 100] [1/100, 1/20] = some 1 := by
  have hs := predictedExcess_calib s
  have h6 := predictedExcess_calib (1/6)
  have hedds : excess_death_dist s [100, 100] [1/100, 1/20] 1 =
      some ((100 * min ((1/100) * (1 + s)) 1 + 100 * min ((1/20) * (1 + s)) 1 - 6 - 1) ^ 2) := by
    rw [excess_death_dist, hs, Option.map_some']
  have hedd6 : excess_death_dist (1/6) [100, 100] [1/100, 1/20] 1 = some 0 := by
    rw [excess_death_dist, h6, Option.map_some']
    congr 1
    rw [min_eq_left (by norm_num), min_eq_left (by norm_num)]
    norm_num
  have hle := hmin (1/6) _ _ hedds hedd6
  have hsq : (100 * min ((1/100) * (1 + s)) 1 + 100 * min ((1/20) * (1 + s)) 1 - 6 - 1) ^ 2 = 0 :=
    le_antisymm hle (sq_nonneg _)
  have hX : 100 * min ((1/100) * (1 + s)) 1 + 100 * min ((1/20) * (1 + s)) 1 - 6 = 1 := by
    have := pow_eq_zero_iff (two_ne_zero) |>.mp hsq
    linarith [sub_eq_zero.mp this]
  rw [hs, hX]

/-- Witness: the exact minimiser `s = 1/6` satisfies the minimality
hypothesis and achieves excess deaths exactly 1. -/
theorem calibrated_scale_achieves_target_witness :
    predictedExcess (1/6) [100, 100] [1/100, 1/20] = some 1 := by
  apply calibrated_scale_achieves_target
  intro t u v hu hv
  have h6 := predictedExcess_calib (1/6)
  have hu2 : excess_death_dist (1/6) [100, 100] [1/100, 1/20] 1 = some 0 := by
    rw [excess_death_dist, h6, Option.map_some']
    congr 1
    rw [min_eq_left (by norm_num), min_eq_left (by norm_num)]
    norm_num
  rw [hu2] at hu
  have ht := predictedExcess_calib t
  have hv2 : excess_death_dist t [100, 100] [1/100, 1/20] 1 =
      some ((100 * min ((1/100) * (1 + t)) 1 + 100 * min ((1/20) * (1 + t)) 1 - 6 - 1) ^ 2) := by
    rw [excess_death_dist, ht, Option.map_some']
  rw [hv2] at hv
  obtain rfl := (Option.some.injEq _ _).mp hu
  obtain rfl := (Option.some.injEq _ _).mp hv
  exact sq_nonneg _

/-- With a zero mortality vector the calibration objective is constant in
the scale factor: the predicted excess is 0 whatever `s` is. -/
theorem excess_death_dist_degenerate (t e : ℚ) :
    excess_death_dist t [1] [0] e = some (e ^ 2) := by
  simp [excess_death_dist, predictedExcess, npMul, npBinop, bcastLen, bget, List.range_succ]

/-- C7 counterexample: for the valid input `pop = [1]`, `mort = [0]` and
targets `e1 = 0 < 1 = e2`, the objective is constant in the scale factor,
so `s1 = 1` minimises it for the smaller target and `s2 = 0` minimises it
for the larger target, and the scale factor calibrated for the larger
target is neither strictly greater than nor at least the one calibrated
for the smaller target. -/
theorem calibrator_not_strictly_monotone :
    (∀ x ∈ [(1 : ℚ)], 0 ≤ x) ∧ (∀ x ∈ [(0 : ℚ)], 0 ≤ x ∧ x ≤ 1) ∧
    (0 : ℚ) < 1 ∧
    (∀ t u v, excess_death_dist 1 [1] [0] 0 = some u →
      excess_death_dist t [1] [0] 0 = some v → u ≤ v) ∧
    (∀ t u v, excess_death_dist 0 [1] [0] 1 = some u →
      excess_death_dist t [1] [0] 1 = some v → u ≤ v) ∧
    ¬ ((0 : ℚ) ≥ 1) := by
  refine ⟨by norm_num, by norm_num, by norm_num, ?_, ?_, by norm_num⟩
  · intro t u v hu hv
    rw [excess_death_dist_degenerate] at hu hv
    obtain rfl := (Option.some.injEq _ _).mp hu
    obtain rfl := (Option.some.injEq _ _).mp hv
    exact le_refl _
  · intro t u v hu hv
    rw [excess_death_dist_degenerate] at hu hv
    obtain rfl := (Option.some.injEq _ _).mp hu
    obtain rfl := (Option.some.injEq _ _).mp hv
    exact le_refl _

/-- Broadcast reads of a vector with all entries bounded below stay bounded
below. -/
theorem bget_nonneg {v : Vec} (h : ∀ x ∈ v, 0 ≤ x) (i : Nat) : 0 ≤ bget v i := by
  rw [bget]
  split
  · cases v with
    | nil => exact le_refl 0
    | cons a l => exact h a (List.mem_cons_self a l)
  · by_cases hi : i < v.length
    · rw [List.getD_eq_getElem _ _ hi]
      exact h _ (List.getElem_mem hi)
    · rw [List.getD_eq_default _ _ (Nat.le_of_not_lt hi)]

/-- Broadcast read through a map, valid at in-range indices or on
length-one vectors. -/
theorem bget_map {g : ℚ → ℚ} {v : Vec} {i : Nat}
    (h : i < v.length ∨ v.length = 1) :
    bget (v.map g) i = g (bget v i) := by
  rw [bget, bget, List.length_map]
  rcases h with h | h
  · by_cases h1 : v.length = 1
    · rw [if_pos h1, if_pos h1]
      cases v with
      | nil => simp at h1
      | cons a l => simp
    · rw [if_neg h1, if_neg h1, List.getD_eq_getElem _ _ h,
        List.getD_eq_getElem _ _ (by simpa using h), List.getElem_map]
  · rw [if_pos h, if_pos h]
    cases v with
    | nil => simp at h
    | cons a l => simp

/-- An in-range index of a broadcast result is in range of any operand whose
length is not 1. -/
theorem bcastLen_index {m n L : Nat} (h : bcastLen m n = some L) {i : Nat}
    (hi : i < L) : i < n ∨ n = 1 := by
  rw [bcastLen] at h
  by_cases h1 : m = n
  · rw [if_pos h1, Option.some.injEq] at h
    left
    omega
  · rw [if_neg h1] at h
    by_cases h2 : m = 1
    · rw [if_pos h2, Option.some.injEq] at h
      left
      omega
    · rw [if_neg h2] at h
      by_cases h3 : n = 1
      · right
        exact h3
      · rw [if_neg h3] at h
        exact absurd h (by simp)

/-- The predicted excess deaths are monotone in the scale factor when the
population and mortality vectors are non-negative. -/
theorem predictedExcess_mono {pop mort : Vec} (hpop : ∀ x ∈ pop, 0 ≤ x)
    (hmort : ∀ x ∈ mort, 0 ≤ x) {s t : ℚ} (hst : s ≤ t) {a b : ℚ}
    (ha : predictedExcess s pop mort = some a)
    (hb : predictedExcess t pop mort = some b) : a ≤ b := by
  rw [predictedExcess] at ha hb
  cases hcur : npMul pop mort with
  | none => rw [hcur] at ha; exact absurd ha (by simp)
  | some cur =>
    rw [hcur] at ha hb
    simp only [optionBind_some] at ha hb
    cases hns : npMul pop (mort.map fun m => min (m * (1 + s)) 1) with
    | none =>
      rw [hns] at ha
      exact absurd ha (by simp)
    | some ndS =>
      cases hnt : npMul pop (mort.map fun m => min (m * (1 + t)) 1) with
      | none =>
        rw [hnt] at hb
        exact absurd hb (by simp)
      | some ndT =>
        rw [hns] at ha
        rw [hnt] at hb
        simp only [optionBind_some, Option.pure_def, Option.some.injEq] at ha hb
        rw [npMul, npBinop] at hns hnt
        rw [List.length_map] at hns hnt
        cases hbc : bcastLen pop.length mort.length with
        | none => rw [hbc] at hns; exact absurd hns (by simp)
        | some L =>
          rw [hbc, Option.some.injEq] at hns hnt
          subst hns hnt
          have hsum : ((List.range L).map fun i =>
              bget pop i * bget (mort.map fun m => min (m * (1 + s)) 1) i).sum ≤
              ((List.range L).map fun i =>
              bget pop i * bget (mort.map fun m => min (m * (1 + t)) 1) i).sum := by
            refine List.sum_le_sum fun i hi => ?_
            have hiL := List.mem_range.mp hi
            have hidx := bcastLen_index hbc hiL
            rw [bget_map hidx, bget_map hidx]
            refine mul_le_mul_of_nonneg_left ?_ (bget_nonneg hpop i)
            refine min_le_min ?_ (le_refl 1)
            exact mul_le_mul_of_nonneg_left (by linarith) (bget_nonneg hmort i)
          rw [← ha, ← hb]
          exact sub_le_sub_right hsum _

/-- C7 amended: when both calibrations achieve their targets exactly (zero
objective residual) on a non-negative population and mortality profile, the
scale factor calibrated for the strictly larger target is strictly
greater. -/
theorem calibrated_scale_strict_mono (pop mort : Vec) (e1 e2 s1 s2 : ℚ)
    (hpop : ∀ x ∈ pop, 0 ≤ x) (hmort : ∀ x ∈ mort, 0 ≤ x)
    (h1 : excess_death_dist s1 pop mort e1 = some 0)
    (h2 : excess_death_dist s2 pop mort e2 = some 0)
    (he : e1 < e2) : s1 < s2 := by
  rw [excess_death_dist] at h1 h2
  cases hp1 : predictedExcess s1 pop mort with
  | none => rw [hp1] at h1; exact absurd h1 (by simp)
  | some p1 =>
    cases hp2 : predictedExcess s2 pop mort with
    | none => rw [hp2] at h2; exact absurd h2 (by simp)
    | some p2 =>
      rw [hp1, Option.map_some', Option.some.injEq] at h1
      rw [hp2, Option.map_some', Option.some.injEq] at h2
      have hpe1 : p1 = e1 := by
        have := pow_eq_zero_iff (two_ne_zero) |>.mp h1
        linarith [sub_eq_zero.mp this]
      have hpe2 : p2 = e2 := by
        have := pow_eq_zero_iff (two_ne_zero) |>.mp h2
        linarith [sub_eq_zero.mp this]
      by_contra hcon
      have hle : s2 ≤ s1 := le_of_not_lt hcon
      have := predictedExcess_mono hpop hmort hle hp2 hp1
      rw [hpe1, hpe2] at this
      linarith

/-- Witness for the strict monotonicity of exactly-achieved calibrations:
`s = 1/6` achieves target 1 exactly and `s = 1/3` achieves target 2 exactly
on `pop = [100, 100]`, `mort = [1/100, 1/20]`, and `1/6 < 1/3`. -/
theorem calibrated_scale_strict_mono_witness :
    excess_death_dist (1/6) [100, 100] [1/100, 1/20] 1 = some 0 ∧
    excess_death_dist (1/3) [100, 100] [1/100, 1/20] 2 = some 0 ∧
    (1/6 : ℚ) < 1/3 := by
  have h1 : excess_death_dist (1/6) [100, 100] [1/100, 1/20] 1 = some 0 := by
    rw [excess_death_dist, predictedExcess_calib, Option.map_some']
    congr 1
    rw [min_eq_left (by norm_num), min_eq_left (by norm_num)]
    norm_num
  have h2 : excess_death_dist (1/3) [100, 100] [1/100, 1/20] 2 = some 0 := by
    rw [excess_death_dist, predictedExcess_calib, Option.map_some']
    congr 1
    rw [min_eq_left (by norm_num), min_eq_left (by norm_num)]
    norm_num
  exact ⟨h1, h2, calibrated_scale_strict_mono [100, 100] [1/100, 1/20] 1 2
    (1/6) (1/3) (by norm_num) (by norm_num) h1 h2 (by norm_num)⟩


/-- A successful NumPy product determines the broadcast length. -/
theorem npMul_some_length {a b c : Vec} (h : npMul a b = some c) :
    bcastLen a.length b.length = some c.length := by
  simp only [npMul, npBinop] at h
  cases hb : bcastLen a.length b.length with
  | none => rw [hb] at h; exact absurd h (by simp)
  | some L =>
    rw [hb] at h
    have h2 := (Option.some.injEq _ _).mp h
    congr 1
    rw [← h2]
    simp

/-- A broadcast whose left length is not 1 returns the left length. -/
theorem bcastLen_some_left {m n L : Nat} (h : bcastLen m n = some L)
    (hm : m ≠ 1) : L = m := by
  rw [bcastLen] at h
  by_cases h1 : m = n
  · rw [if_pos h1, Option.some.injEq] at h
    omega
  · rw [if_neg h1, if_neg hm] at h
    by_cases h3 : n = 1
    · rw [if_pos h3, Option.some.injEq] at h
      omega
    · rw [if_neg h3] at h
      exact absurd h (by simp)

/-- The survivor update of the projector cannot complete for any population
of age dimension at least 2: the `(n-1)`-length slice `pop_t[:-1]` and the
`n`-length mortality row do not broadcast to an `(n-1)`-length result for
the assignment into `pop_tp1[1:]`. -/
theorem projBody_none_of_two_le {mrow frow irow popT : Vec} {infv : ℚ}
    {n : Nat} (hp : popT.length = n) (hm : mrow.length = n) (hn : 2 ≤ n) :
    projBody mrow frow infv irow popT = none := by
  simp only [projBody]
  cases ht1 : npMul popT.dropLast (oneMinus mrow) with
  | none => rfl
  | some t1 =>
    simp only [optionBind_some]
    have hb1 := npMul_some_length ht1
    rw [List.length_dropLast, oneMinus, List.length_map, hp, hm] at hb1
    by_cases h2 : n = 2
    · subst h2
      have ht1len : t1.length = 2 := by
        rw [bcastLen] at hb1
        rw [if_neg (by omega), if_pos (by omega), Option.some.injEq] at hb1
        omega
      cases ht2 : npMul popT irow with
      | none => rfl
      | some t2 =>
        simp only [optionBind_some]
        have hb2 := npMul_some_length ht2
        have ht2len : t2.length = 2 := by
          have := bcastLen_some_left hb2 (by omega)
          omega
        cases ht3 : npAdd t1 t2 with
        | none => rfl
        | some t3 =>
          simp only [optionBind_some]
          have hb3 : bcastLen t1.length t2.length = some t3.length := by
            simp only [npAdd, npBinop] at ht3
            cases hb : bcastLen t1.length t2.length with
            | none => rw [hb] at ht3; exact absurd ht3 (by simp)
            | some L =>
              rw [hb] at ht3
              have h4 := (Option.some.injEq _ _).mp ht3
              congr 1
              rw [← h4]
              simp
          have ht3len : t3.length = 2 := by
            rw [ht1len, ht2len] at hb3
            have := bcastLen_some_left hb3 (by omega)
            omega
          have hst : setTail (List.replicate popT.length 0) t3 = none := by
            rw [setTail]
            simp only [List.length_replicate, hp]
            rw [if_neg (by omega), if_neg (by omega)]
          rw [hst]
          rfl
    · have hnone : bcastLen (n - 1) n = none := by
        rw [bcastLen]
        rw [if_neg (by omega), if_neg (by omega), if_neg (by omega)]
      rw [hnone] at hb1
      exact absurd hb1 (by simp)

/-- C8 amended: with zero mortality and zero immigration, whenever the
projector's survivor/newborn update completes, the next total population
equals the previous total plus the newborn entry minus the truncated oldest
cohort: births aside, mass is conserved only up to the dropped oldest age
group (and the update completes only in the single-age case). -/
theorem projBody_mass_balance (n : Nat) (frow popT popN : Vec) (infv : ℚ)
    (hlen : popT.length = n)
    (hsucc : projBody (List.replicate n 0) frow infv (List.replicate n 0) popT =
      some popN) :
    popN.sum = popT.sum - popT.getLastD 0 + popN.headD 0 := by
  rcases Nat.lt_or_ge n 2 with hn | hn
  · match n, hn with
    | 0, _ =>
      rw [List.length_eq_zero.mp hlen] at hsucc ⊢
      simp [projBody, npMul, npAdd, npBinop, bcastLen, bget, oneMinus, setTail, setHead,
        Option.bind_eq_some] at hsucc
    | 1, _ =>
      obtain ⟨a, rfl⟩ := List.length_eq_one.mp hlen
      simp [projBody, npMul, npAdd, npBinop, bcastLen, bget, oneMinus, setTail, setHead,
        Option.bind_eq_some, List.range_succ] at hsucc
      obtain ⟨births, hb, rfl⟩ := hsucc
      simp
  · rw [projBody_none_of_two_le hlen (List.length_replicate n 0) hn] at hsucc
    exact absurd hsucc (by simp)

/-- Witness for the mass-balance relation at the one-age input `pop = [5]`
with fertility row `[2]`: the step succeeds with newborns 10 and the
balance `10 = 5 - 5 + 10` holds. -/
theorem projBody_mass_balance_witness :
    projBody (List.replicate 1 0) [2] 0 (List.replicate 1 0) [5] = some [10] ∧
      List.sum [(10 : ℚ)] = List.sum [(5 : ℚ)] - List.getLastD [(5 : ℚ)] 0 +
        List.headD [(10 : ℚ)] 0 := by
  have hs : projBody (List.replicate 1 0) [2] 0 (List.replicate 1 0) [5] =
      some [10] := by
    simp [projBody, npMul, npAdd, npBinop, bcastLen, bget, oneMinus, setTail, setHead,
      List.range_succ]
    norm_num
  exact ⟨hs, projBody_mass_balance 1 [2] [5] [10] 0 rfl hs⟩

/-- C10: for every input whose age dimension `n` is at least 2 (population
row 0 and mortality row 0 both of length `n`), the projector's survivor
update raises a shape error in its very first year, so `total_deaths`
cannot return a death matrix. -/
theorem totalDeaths_none_of_two_le (pop_dist fert mort : Mat) (infmort : Vec)
    (imm : Mat) (H n : Nat) (p0 r0 : Vec)
    (hpop : pop_dist.get? 0 = some p0) (hp : p0.length = n)
    (hm0 : mort.get? 0 = some r0) (hr : r0.length = n) (hn : 2 ≤ n) :
    totalDeaths pop_dist fert mort infmort imm H = none := by
  have hstep : ∀ st : Mat × Vec, st.2 = p0 →
      stepAt fert mort infmort imm st 0 = none := by
    intro st hst
    simp only [stepAt, hm0, hst, optionBind_some]
    cases hd : npMul p0 r0 with
    | none => rfl
    | some drow =>
      simp only [optionBind_some]
      cases hsr : setRow st.1 0 drow with
      | none => rfl
      | some deaths2 =>
        simp only [optionBind_some]
        cases hf : fert.get? 0 with
        | none => rfl
        | some frow =>
          simp only [optionBind_some]
          cases hi2 : imm.get? 0 with
          | none => rfl
          | some irow =>
            simp only [optionBind_some]
            cases hinf : infmort.get? 0 with
            | none => rfl
            | some infv =>
              simp only [optionBind_some]
              rw [projBody_none_of_two_le hp hr hn]
              rfl
  have hml : 0 < mort.length := by
    cases mort with
    | nil => simp at hm0
    | cons a l => simp
  obtain ⟨k, hk⟩ : ∃ k, mort.length = k + 1 := ⟨mort.length - 1, by omega⟩
  rw [totalDeaths, hpop]
  simp only [optionBind_some]
  rw [hk, List.range_succ_eq_map, runYears,
    hstep (List.replicate H (List.replicate (mort.headD []).length 0), p0) rfl]
  rfl

/-- Witness: a three-age input with one stored rate row makes the projector
fail. -/
theorem totalDeaths_none_of_two_le_witness :
    totalDeaths [[1, 1, 1]] [[0, 0, 0]] [[0, 0, 0]] [0] [[0, 0, 0]] 1 = none :=
  totalDeaths_none_of_two_le [[1, 1, 1]] [[0, 0, 0]] [[0, 0, 0]] [0] [[0, 0, 0]]
    1 3 [1, 1, 1] [0, 0, 0] rfl rfl rfl rfl (by norm_num)
